import Mathlib

/-!
Verification development for the sandbox2 core engine
(policy builder / seccomp-BPF compilation, monitors, comms channel,
network-proxy server, raw logging).

Shallow embedding notes.  The seccomp policy builder (`policybuilder.cc`),
the comms implementation (`comms.cc`) and the path-cleaning helper are not
among the excerpted sources; those definitions are modelled from the spec
(each such definition carries a doc comment starting with
`Modelled from the spec:`) and are cross-checked against the behaviour the
unit tests in `policybuilder_test.cc` assert.  The network-proxy server
(`network_proxy/server.cc`), the monitors' `SetWallTimeLimit`
implementations (`monitor.h` / `monitor_unotify.h`) and the raw-logging
routines (`raw_logging.cc`) are embedded directly from the sources.
-/

/-! ## BPF instructions (struct sock_filter) -/

/-- One `struct sock_filter` instruction: a 16-bit opcode, two 8-bit
conditional jump offsets and a 32-bit operand.  Widths are not enforced by
the type; the builder only ever stores small literals. -/
structure SockFilter where
  code : Nat
  jt : Nat
  jf : Nat
  k : Nat
deriving DecidableEq, Repr, Inhabited

/-- BPF_CLASS(code) = code & 0x07. -/
def bpfClassOf (c : Nat) : Nat := c % 8

/-- BPF_OP(code) = code & 0xf0. -/
def bpfOpOf (c : Nat) : Nat := c &&& 0xf0

/-- Class of jump instructions (BPF_JMP). -/
def bpfJmpClass : Nat := 5

/-- BPF_JA opcode field (unconditional jump). -/
def bpfJaOp : Nat := 0

/-- SECCOMP_RET_ALLOW. -/
def seccompRetAllow : Nat := 0x7fff0000

/-- SECCOMP_RET_KILL. -/
def seccompRetKill : Nat := 0

/-- SECCOMP_RET_ERRNO | (e & 0xffff), as produced by the ERRNO macro. -/
def seccompRetErrno (e : Nat) : Nat := 0x00050000 + (e % 65536)

/-- BPF_JMP|BPF_JEQ|BPF_K instruction (code 0x15) comparing the accumulator
against `v`, jumping `jt`/`jf` instructions forward. -/
def jeqK (v jt jf : Nat) : SockFilter := ⟨0x15, jt, jf, v⟩

/-- BPF_RET|BPF_K instruction (code 0x06) returning the seccomp action `v`. -/
def retK (v : Nat) : SockFilter := ⟨0x06, 0, 0, v⟩

/-- BPF_LD|BPF_W|BPF_ABS instruction (code 0x20) loading a word at offset
`off` of seccomp_data. -/
def ldAbs (off : Nat) : SockFilter := ⟨0x20, 0, 0, off⟩

/-- Absolute instruction indices an instruction placed at index `i` can
transfer control to.  BPF jumps are always forward: a conditional jump
targets `i+1+jt` and `i+1+jf`, an unconditional one `i+1+k`; all other
instructions fall through (no jump targets). -/
def SockFilter.targets (f : SockFilter) (i : Nat) : List Nat :=
  if bpfClassOf f.code = bpfJmpClass then
    if bpfOpOf f.code = bpfJaOp then [i + 1 + f.k]
    else [i + 1 + f.jt, i + 1 + f.jf]
  else []

/-- Every jump target of every instruction of `prog` lies inside
`[0, prog.length)`. -/
def inBounds (prog : List SockFilter) : Prop :=
  ∀ (i : Nat) (f : SockFilter),
    prog[i]? = some f → ∀ t ∈ f.targets i, t < prog.length

/-! ## Policy-builder fragments -/

/-- Modelled from the spec: the builder tracks per-syscall rule fragments as
relocatable blocks (spec 4.2).  A `rule` fragment is the two-instruction
comparison emitted by `AllowSyscall` / `BlockSyscallWithErrno` (compare the
syscall number, return the action, else fall through to the next fragment).
A `custom` fragment is the block emitted by `AddPolicyOnSyscall(s)`: one
comparison per listed syscall number jumping into the embedded user BPF
`body`, which on fall-through exits to the next fragment. -/
inductive Frag where
  | rule (nr : Nat) (action : Nat)
  | custom (nrs : List Nat) (body : List SockFilter)
deriving DecidableEq, Repr

/-- Instruction sequence of a fragment.  For `custom`, check `i` of `m`
jumps to the body start (offset `m-1-i` forward) on a match; the last check
skips the whole body on a mismatch, earlier checks fall through to the next
check. -/
def Frag.flatten : Frag → List SockFilter
  | .rule nr action => [jeqK nr 0 1, retK action]
  | .custom nrs body =>
      let m := nrs.length
      ((List.range m).map fun i =>
        jeqK (nrs.getD i 0) (m - 1 - i) (if i = m - 1 then body.length else 0))
        ++ body

/-- Number of BPF instructions contributed by a fragment. -/
def Frag.size (f : Frag) : Nat := f.flatten.length

/-- The in-fragment jump validity check the builder runs on an embedded
user policy: a jump from body instruction `i` may move at most to the end
of the body (where control continues with the next fragment), i.e. its
offset is bounded by `len - i - 1`. -/
def bodyOk (body : List SockFilter) : Bool :=
  (List.range body.length).all fun i =>
    let f := body.getD i default
    let maxJ := body.length - i - 1
    if bpfClassOf f.code = bpfJmpClass then
      if bpfOpOf f.code = bpfJaOp then decide (f.k ≤ maxJ)
      else decide (f.jt ≤ maxJ) && decide (f.jf ≤ maxJ)
    else true

/-- A fragment the builder considers well-formed: plain rules always are;
custom fragments need a nonempty syscall list and an in-bounds body. -/
def Frag.valid : Frag → Prop
  | .rule _ _ => True
  | .custom nrs body => nrs ≠ [] ∧ bodyOk body = true

instance : DecidablePred Frag.valid := fun f => by
  cases f <;> simp [Frag.valid] <;> infer_instance

/-! ## PolicyBuilder state and operations -/

/-- Builder-level error classes (absl status codes used by the builder). -/
inductive BError where
  | invalidArgument
  | failedPrecondition
deriving DecidableEq, Repr

/-- __NR_ptrace on x86_64. -/
def ptraceNr : Nat := 101

/-- Modelled from the spec: the state behind the `PolicyBuilder` fluent API
(spec 3 "Policy", 4.2).  `user_policy` is the list of user rule fragments
(its flattened length is what the test peer reads as `policy_size`);
`handled` is the set of syscall numbers already given an
`AllowSyscall`/`BlockSyscallWithErrno` rule (repeats are dropped);
`custom_syscalls` are syscalls given `AddPolicyOnSyscall` rules;
`handles_ptrace` records a `BlockSyscallWithErrno(ptrace)` call, whose
claim to handle ptrace the build step cross-checks against
`custom_syscalls` (the `CanBypassPtrace` test).  `status` keeps the first
recorded configuration error, `already_built` makes building single-shot.
The remaining fields hold the namespace/network configuration, which never
touches the BPF program. -/
structure PolicyBuilder where
  user_policy : List Frag := []
  handled : List Nat := []
  custom_syscalls : List Nat := []
  handles_ptrace : Bool := false
  status : Option BError := none
  already_built : Bool := false
  files : List (List Char) := []
  dirs : List (List Char) := []
  tmpfs_mounts : List ((List Char) × Nat) := []
  shared_netns : Bool := false
  unrestricted_networking : Bool := false
deriving DecidableEq, Repr

/-- Keeps the first error recorded on the builder. -/
def PolicyBuilder.setError (b : PolicyBuilder) (e : BError) : PolicyBuilder :=
  if b.status = none then { b with status := some e } else b

/-- Modelled from the spec: `AllowSyscall(n)` appends a two-instruction
allow rule unless `n` already has a plain rule (spec 4.2 idempotence,
`Testpolicy_size`). -/
def PolicyBuilder.allowSyscall (b : PolicyBuilder) (n : Nat) : PolicyBuilder :=
  if n ∈ b.handled then b
  else { b with
    user_policy := b.user_policy ++ [.rule n seccompRetAllow]
    handled := b.handled ++ [n] }

/-- Modelled from the spec: `BlockSyscallWithErrno(n, e)` appends a
two-instruction errno rule unless `n` already has a plain rule; blocking
`ptrace` additionally records that the user policy claims to handle ptrace
(spec 4.2, scenario 4, `CanBypassPtrace`). -/
def PolicyBuilder.blockSyscallWithErrno (b : PolicyBuilder) (n e : Nat) :
    PolicyBuilder :=
  if n ∈ b.handled then b
  else { b with
    user_policy := b.user_policy ++ [.rule n (seccompRetErrno e)]
    handled := b.handled ++ [n]
    handles_ptrace := b.handles_ptrace || decide (n = ptraceNr) }

/-- Modelled from the spec: `AddPolicyOnSyscalls(nums, policy)` always
appends a fresh custom fragment (spec 4.2: "AddPolicyOnSyscall always
appends"); an empty syscall list or an embedded out-of-bounds jump records
an invalid-argument error that makes the later build fail (spec 4.2
validation (a)/(b)). -/
def PolicyBuilder.addPolicyOnSyscalls (b : PolicyBuilder) (nrs : List Nat)
    (body : List SockFilter) : PolicyBuilder :=
  if nrs = [] then b.setError .invalidArgument
  else
    { b with
      status := if bodyOk body then b.status else (b.setError .invalidArgument).status
      user_policy := b.user_policy ++ [.custom nrs body]
      custom_syscalls := b.custom_syscalls ++ nrs }

/-- `AddPolicyOnSyscall(n, policy)` is the single-syscall form. -/
def PolicyBuilder.addPolicyOnSyscall (b : PolicyBuilder) (n : Nat)
    (body : List SockFilter) : PolicyBuilder :=
  b.addPolicyOnSyscalls [n] body

/-! ### Path validation -/

/-- Splits a character sequence at every slash; always returns at least one
(possibly empty) component, mirroring how the C++ code walks the path
string component by component. -/
def splitSlash : List Char → List (List Char)
  | [] => [[]]
  | c :: rest =>
      if c = '/' then [] :: splitSlash rest
      else
        match splitSlash rest with
        | [] => [[c]]
        | s :: ss => (c :: s) :: ss

/-- Modelled from the spec: the component stack built by lexical path
normalization (`CleanPath`): empty and `.` components are dropped, `..`
pops the previous component (at the root it is dropped), anything else is
pushed. -/
def cleanStack (stack : List (List Char)) : List (List Char) → List (List Char)
  | [] => stack
  | c :: rest =>
      if c = [] ∨ c = ['.'] then cleanStack stack rest
      else if c = ['.', '.'] then cleanStack stack.dropLast rest
      else cleanStack (stack ++ [c]) rest

/-- Component list of the normalized form of an absolute path whose
post-root components are `cs`; an empty stack renders as `/` (components
`[[]]`). -/
def cleanAbsComps (cs : List (List Char)) : List (List Char) :=
  if cleanStack [] cs = [] then [[]] else cleanStack [] cs

/-- Modelled from the spec: `PolicyBuilder::ValidateAbsolutePath` accepts a
path iff it is absolute and lexical normalization leaves it unchanged, and
returns the path itself (spec 4.2 validation (c), 3 "Policy" (b)).
Comparison happens on the slash-split component lists, which determine the
strings uniquely. -/
def validateAbsolutePath (p : List Char) : Except BError (List Char) :=
  if p.head? = some '/' then
    if cleanAbsComps (splitSlash p).tail = (splitSlash p).tail then .ok p
    else .error .invalidArgument
  else .error .invalidArgument

/-- Modelled from the spec: `AddFile` validates the path and records it;
the seccomp policy is untouched (spec 4.2 "Namespace helpers do not mutate
the BPF"). -/
def PolicyBuilder.addFile (b : PolicyBuilder) (p : List Char) : PolicyBuilder :=
  match validateAbsolutePath p with
  | .ok q => { b with files := b.files ++ [q] }
  | .error e => b.setError e

/-- Modelled from the spec: `AddDirectory` validates the path and records
it; the seccomp policy is untouched. -/
def PolicyBuilder.addDirectory (b : PolicyBuilder) (p : List Char) :
    PolicyBuilder :=
  match validateAbsolutePath p with
  | .ok q => { b with dirs := b.dirs ++ [q] }
  | .error e => b.setError e

/-- Modelled from the spec: `AddTmpfs` records a tmpfs mount; the seccomp
policy is untouched. -/
def PolicyBuilder.addTmpfs (b : PolicyBuilder) (p : List Char) (size : Nat) :
    PolicyBuilder :=
  match validateAbsolutePath p with
  | .ok q => { b with tmpfs_mounts := b.tmpfs_mounts ++ [(q, size)] }
  | .error e => b.setError e

/-- Modelled from the spec: `UseForkServerSharedNetNs` flips a namespace
flag only. -/
def PolicyBuilder.useForkServerSharedNetNs (b : PolicyBuilder) : PolicyBuilder :=
  { b with shared_netns := true }

/-- Modelled from the spec: `Allow(UnrestrictedNetworking())` flips the
allow-all network flag only. -/
def PolicyBuilder.allowUnrestrictedNetworking (b : PolicyBuilder) :
    PolicyBuilder :=
  { b with unrestricted_networking := true }

/-! ### Building -/

/-- AUDIT_ARCH_X86_64. -/
def hostArch : Nat := 0xc000003e

/-- Modelled from the spec: compilation order of the final program
(spec 4.2): architecture prologue (load `data.arch`, kill on mismatch),
syscall loader (load `data.nr`), the user rules in insertion order, then
the default KILL action. -/
def assemble (user : List Frag) : List SockFilter :=
  [ldAbs 4, jeqK hostArch 1 0, retK seccompRetKill, ldAbs 0]
    ++ user.flatMap Frag.flatten ++ [retK seccompRetKill]

/-- Modelled from the spec: `TryBuild` fails with a precondition error on a
second attempt (spec 3 "Policy" invariant), otherwise reports the first
recorded configuration error, otherwise refuses a policy whose
`BlockSyscallWithErrno(ptrace)` claim is shadowed by an earlier custom
ptrace rule (the `CanBypassPtrace` test), and otherwise returns the
compiled program.  Every attempt marks the builder as built. -/
def PolicyBuilder.tryBuild (b : PolicyBuilder) :
    Except BError (List SockFilter) × PolicyBuilder :=
  let b' := { b with already_built := true }
  if b.already_built then (.error .failedPrecondition, b')
  else
    match b.status with
    | some e => (.error e, b')
    | none =>
        if b.handles_ptrace ∧ ptraceNr ∈ b.custom_syscalls then
          (.error .invalidArgument, b')
        else (.ok (assemble b.user_policy), b')

/-- The quantity the test peer reads as `policy_size`: the number of
instructions in the flattened user policy. -/
def PolicyBuilder.policySize (b : PolicyBuilder) : Nat :=
  (b.user_policy.map Frag.size).sum

/-- Builder states reachable from a fresh `PolicyBuilder` through the
modelled fluent API (including past build attempts). -/
inductive Reachable : PolicyBuilder → Prop where
  | init : Reachable {}
  | allow {b} (n : Nat) : Reachable b → Reachable (b.allowSyscall n)
  | block {b} (n e : Nat) : Reachable b → Reachable (b.blockSyscallWithErrno n e)
  | addPolicy {b} (n : Nat) (body : List SockFilter) : Reachable b →
      Reachable (b.addPolicyOnSyscall n body)
  | addPolicies {b} (nrs : List Nat) (body : List SockFilter) : Reachable b →
      Reachable (b.addPolicyOnSyscalls nrs body)
  | addFile {b} (p : List Char) : Reachable b → Reachable (b.addFile p)
  | addDirectory {b} (p : List Char) : Reachable b → Reachable (b.addDirectory p)
  | addTmpfs {b} (p : List Char) (size : Nat) : Reachable b →
      Reachable (b.addTmpfs p size)
  | sharedNetNs {b} : Reachable b → Reachable b.useForkServerSharedNetNs
  | unrestricted {b} : Reachable b → Reachable b.allowUnrestrictedNetworking
  | build {b} : Reachable b → Reachable b.tryBuild.snd

/-! ## Builder helper lemmas -/

theorem setError_user_policy (b : PolicyBuilder) (e : BError) :
    (b.setError e).user_policy = b.user_policy := by
  unfold PolicyBuilder.setError; split <;> rfl

theorem setError_custom_syscalls (b : PolicyBuilder) (e : BError) :
    (b.setError e).custom_syscalls = b.custom_syscalls := by
  unfold PolicyBuilder.setError; split <;> rfl

theorem setError_handled (b : PolicyBuilder) (e : BError) :
    (b.setError e).handled = b.handled := by
  unfold PolicyBuilder.setError; split <;> rfl

theorem allowSyscall_mem_handled (b : PolicyBuilder) (n : Nat) :
    n ∈ (b.allowSyscall n).handled := by
  unfold PolicyBuilder.allowSyscall; split <;> simp_all

theorem allowSyscall_of_mem {b : PolicyBuilder} {n : Nat} (h : n ∈ b.handled) :
    b.allowSyscall n = b := by
  unfold PolicyBuilder.allowSyscall; rw [if_pos h]

theorem block_of_mem {b : PolicyBuilder} {n : Nat} (e : Nat)
    (h : n ∈ b.handled) : b.blockSyscallWithErrno n e = b := by
  unfold PolicyBuilder.blockSyscallWithErrno; rw [if_pos h]

theorem allowSyscall_idem (b : PolicyBuilder) (n : Nat) :
    (b.allowSyscall n).allowSyscall n = b.allowSyscall n :=
  allowSyscall_of_mem (allowSyscall_mem_handled b n)

theorem block_after_allow (b : PolicyBuilder) (n e : Nat) :
    (b.allowSyscall n).blockSyscallWithErrno n e = b.allowSyscall n :=
  block_of_mem e (allowSyscall_mem_handled b n)

theorem addPolicyOnSyscall_user_policy (b : PolicyBuilder) (n : Nat)
    (body : List SockFilter) :
    (b.addPolicyOnSyscall n body).user_policy
      = b.user_policy ++ [.custom [n] body] := by
  unfold PolicyBuilder.addPolicyOnSyscall PolicyBuilder.addPolicyOnSyscalls
  rw [if_neg (by simp)]

theorem addPolicyOnSyscall_handled (b : PolicyBuilder) (n : Nat)
    (body : List SockFilter) :
    (b.addPolicyOnSyscall n body).handled = b.handled := by
  unfold PolicyBuilder.addPolicyOnSyscall PolicyBuilder.addPolicyOnSyscalls
  rw [if_neg (by simp)]

theorem addPolicyOnSyscall_mem_custom (b : PolicyBuilder) (n : Nat)
    (body : List SockFilter) :
    n ∈ (b.addPolicyOnSyscall n body).custom_syscalls := by
  unfold PolicyBuilder.addPolicyOnSyscall PolicyBuilder.addPolicyOnSyscalls
  rw [if_neg (by simp)]
  simp

theorem block_custom_syscalls (b : PolicyBuilder) (n e : Nat) :
    (b.blockSyscallWithErrno n e).custom_syscalls = b.custom_syscalls := by
  unfold PolicyBuilder.blockSyscallWithErrno; split <;> rfl

theorem block_handles_ptrace (b : PolicyBuilder) (e : Nat)
    (h : ptraceNr ∉ b.handled) :
    (b.blockSyscallWithErrno ptraceNr e).handles_ptrace = true := by
  unfold PolicyBuilder.blockSyscallWithErrno
  simp [h]

theorem tryBuild_error_of_bypass (b : PolicyBuilder)
    (hp : b.handles_ptrace = true) (hc : ptraceNr ∈ b.custom_syscalls) :
    ∃ err, b.tryBuild.fst = Except.error err := by
  unfold PolicyBuilder.tryBuild
  by_cases hb : b.already_built
  · exact ⟨.failedPrecondition, by simp [hb]⟩
  · cases hs : b.status with
    | some e => exact ⟨e, by simp [hb, hs]⟩
    | none => exact ⟨.invalidArgument, by simp [hb, hs, hp, hc]⟩

theorem tryBuild_snd_built (b : PolicyBuilder) :
    b.tryBuild.snd = { b with already_built := true } := by
  unfold PolicyBuilder.tryBuild
  split
  · rfl
  · split <;> first | rfl | split <;> rfl

theorem policySize_addPolicyOnSyscall (b : PolicyBuilder) (n : Nat)
    (body : List SockFilter) :
    (b.addPolicyOnSyscall n body).policySize
      = b.policySize + (1 + body.length) := by
  unfold PolicyBuilder.policySize
  rw [addPolicyOnSyscall_user_policy]
  simp [Frag.size, Frag.flatten]

theorem policySize_addFile (b : PolicyBuilder) (p : List Char) :
    (b.addFile p).policySize = b.policySize := by
  unfold PolicyBuilder.addFile PolicyBuilder.policySize
  split <;> simp [setError_user_policy]

theorem policySize_addDirectory (b : PolicyBuilder) (p : List Char) :
    (b.addDirectory p).policySize = b.policySize := by
  unfold PolicyBuilder.addDirectory PolicyBuilder.policySize
  split <;> simp [setError_user_policy]

theorem policySize_addTmpfs (b : PolicyBuilder) (p : List Char) (size : Nat) :
    (b.addTmpfs p size).policySize = b.policySize := by
  unfold PolicyBuilder.addTmpfs PolicyBuilder.policySize
  split <;> simp [setError_user_policy]

/-! ## Claim C3 -/

/-- C3: repeated `AllowSyscall(n)` is size-idempotent (in fact the second
call leaves the whole builder unchanged), every `AddPolicyOnSyscall(n, ...)`
strictly increases the user policy size, and the namespace/network helpers
(`AddFile`, `AddDirectory`, `AddTmpfs`, `UseForkServerSharedNetNs`,
`Allow(UnrestrictedNetworking())`) never change the seccomp policy size. -/
theorem C3_size_algebra :
    (∀ (b : PolicyBuilder) (n : Nat),
      ((b.allowSyscall n).allowSyscall n).policySize
        = (b.allowSyscall n).policySize) ∧
    (∀ (b : PolicyBuilder) (n : Nat) (body : List SockFilter),
      b.policySize < (b.addPolicyOnSyscall n body).policySize) ∧
    (∀ (b : PolicyBuilder) (p : List Char),
      (b.addFile p).policySize = b.policySize) ∧
    (∀ (b : PolicyBuilder) (p : List Char),
      (b.addDirectory p).policySize = b.policySize) ∧
    (∀ (b : PolicyBuilder) (p : List Char) (size : Nat),
      (b.addTmpfs p size).policySize = b.policySize) ∧
    (∀ b : PolicyBuilder,
      b.useForkServerSharedNetNs.policySize = b.policySize) ∧
    (∀ b : PolicyBuilder,
      b.allowUnrestrictedNetworking.policySize = b.policySize) := by
  refine ⟨fun b n => by rw [allowSyscall_idem], fun b n body => ?_,
    policySize_addFile, policySize_addDirectory, policySize_addTmpfs,
    fun b => rfl, fun b => rfl⟩
  rw [policySize_addPolicyOnSyscall]
  omega

/-! ## Claim C4 -/

/-- C4: a policy can be built at most once.  A fresh builder's first
`TryBuild` succeeds, and after any build attempt on any builder a further
attempt fails with a failed-precondition error. -/
theorem C4_build_once :
    ((PolicyBuilder.tryBuild {}).fst = .ok (assemble [])) ∧
    (∀ b : PolicyBuilder,
      b.tryBuild.snd.tryBuild.fst = .error .failedPrecondition) := by
  refine ⟨rfl, fun b => ?_⟩
  rw [tryBuild_snd_built]
  unfold PolicyBuilder.tryBuild
  rfl

/-! ## Claim C1 -/

/-- C1 fails on the code: registering `AddPolicyOnSyscall(ptrace, {ALLOW})`
followed by `BlockSyscallWithErrno(ptrace, ENOENT)` does not produce a
policy with the first rule shadowing the second — building fails with an
invalid-argument error (the `CanBypassPtrace` test). -/
theorem C1_counterexample :
    (PolicyBuilder.tryBuild
      (PolicyBuilder.blockSyscallWithErrno
        (PolicyBuilder.addPolicyOnSyscall {} ptraceNr [retK seccompRetAllow])
        ptraceNr 2)).fst
      = .error .invalidArgument := by
  rfl

/-- C1 amended: `AllowSyscall(n)` followed by `BlockSyscallWithErrno(n, e)`
builds with the first rule winning because the second call is dropped
entirely (the builder state is unchanged, so the errno rule is not in the
program); and `AddPolicyOnSyscall(ptrace, ...)` followed by
`BlockSyscallWithErrno(ptrace, e)` (ptrace not plainly handled before)
does not build at all: every build attempt returns an error. -/
theorem C1_amended :
    (∀ (b : PolicyBuilder) (n e : Nat),
      (b.allowSyscall n).blockSyscallWithErrno n e = b.allowSyscall n) ∧
    (∀ (b : PolicyBuilder) (body : List SockFilter) (e : Nat),
      ptraceNr ∉ b.handled →
      ∃ err, ((b.addPolicyOnSyscall ptraceNr body).blockSyscallWithErrno
        ptraceNr e).tryBuild.fst = Except.error err) := by
  refine ⟨block_after_allow, fun b body e hmem => ?_⟩
  apply tryBuild_error_of_bypass
  · apply block_handles_ptrace
    rw [addPolicyOnSyscall_handled]
    exact hmem
  · rw [block_custom_syscalls]
    exact addPolicyOnSyscall_mem_custom b ptraceNr body

/-- Witness for the amended C1 at a concrete input: a fresh builder, an
empty embedded policy body, errno ENOENT. -/
theorem C1_amended_witness :
    ptraceNr ∉ (({} : PolicyBuilder)).handled ∧
    ∃ err, (PolicyBuilder.tryBuild
      (PolicyBuilder.blockSyscallWithErrno
        (PolicyBuilder.addPolicyOnSyscall {} ptraceNr []) ptraceNr 2)).fst
      = Except.error err :=
  ⟨by decide, C1_amended.2 {} [] 2 (by decide)⟩

/-! ## Claim C5: path validation -/

/-- A path component the claim considers canonical: nonempty and neither
`.` nor `..`.  An empty component corresponds to a double slash or a
trailing slash in the rendered path. -/
def goodComp (c : List Char) : Prop := c ≠ [] ∧ c ≠ ['.'] ∧ c ≠ ['.', '.']

instance : DecidablePred goodComp := fun c => by
  unfold goodComp; infer_instance

/-- The claim's characterisation of an accepted path: the root path `/`,
or an absolute path all of whose components are canonical (which excludes
`.` and `..` components, double slashes and a trailing slash). -/
def claimCanonical (p : List Char) : Prop :=
  p.head? = some '/' ∧ (p = ['/'] ∨ ∀ c ∈ (splitSlash p).tail, goodComp c)

theorem splitSlash_ne_nil (p : List Char) : splitSlash p ≠ [] := by
  cases p with
  | nil => simp [splitSlash]
  | cons c rest =>
      unfold splitSlash
      split
      · simp
      · split <;> simp

theorem splitSlash_slash (r : List Char) :
    splitSlash ('/' :: r) = [] :: splitSlash r := by
  simp [splitSlash]

theorem splitSlash_cons_head {c : Char} (r : List Char) (h : c ≠ '/') :
    ∃ s ss, splitSlash r = s :: ss ∧ splitSlash (c :: r) = (c :: s) :: ss := by
  cases hr : splitSlash r with
  | nil => exact absurd hr (splitSlash_ne_nil r)
  | cons s ss =>
      refine ⟨s, ss, rfl, ?_⟩
      unfold splitSlash
      rw [if_neg h, hr]

theorem splitSlash_eq_root_iff (r : List Char) :
    splitSlash r = [[]] ↔ r = [] := by
  constructor
  · intro h
    cases r with
    | nil => rfl
    | cons c rest =>
        by_cases hc : c = '/'
        · subst hc
          rw [splitSlash_slash] at h
          have := congrArg List.tail h
          simp at this
          exact absurd this (splitSlash_ne_nil rest)
        · obtain ⟨s, ss, _, h2⟩ := splitSlash_cons_head rest hc
          rw [h2] at h
          simp at h
  · intro h; subst h; rfl

theorem cleanStack_all_good (st : List (List Char)) (cs : List (List Char))
    (h : ∀ c ∈ cs, goodComp c) : cleanStack st cs = st ++ cs := by
  induction cs generalizing st with
  | nil => simp [cleanStack]
  | cons c rest ih =>
      have hg : goodComp c := h c (by simp)
      obtain ⟨h1, h2, h3⟩ := hg
      unfold cleanStack
      rw [if_neg (by simp [h1, h2]), if_neg h3]
      rw [ih (st ++ [c]) (fun x hx => h x (by simp [hx]))]
      simp

theorem cleanStack_length_le (cs : List (List Char)) (st : List (List Char)) :
    (cleanStack st cs).length ≤ st.length + cs.length := by
  induction cs generalizing st with
  | nil => simp [cleanStack]
  | cons c rest ih =>
      unfold cleanStack
      split
      · have := ih st
        simp only [List.length_cons]
        omega
      · split
        · have := ih st.dropLast
          have hd : st.dropLast.length ≤ st.length := by
            simp [List.length_dropLast]
          simp only [List.length_cons]
          omega
        · have := ih (st ++ [c])
          simp only [List.length_append, List.length_cons, List.length_nil] at *
          omega

theorem cleanStack_length_lt (cs : List (List Char)) (st : List (List Char))
    (h : ∃ c ∈ cs, ¬goodComp c) :
    (cleanStack st cs).length < st.length + cs.length := by
  induction cs generalizing st with
  | nil => simp at h
  | cons c rest ih =>
      unfold cleanStack
      by_cases hskip : c = [] ∨ c = ['.']
      · rw [if_pos hskip]
        have := cleanStack_length_le rest st
        simp only [List.length_cons]
        omega
      · rw [if_neg hskip]
        by_cases hdd : c = ['.', '.']
        · rw [if_pos hdd]
          have := cleanStack_length_le rest st.dropLast
          have hd : st.dropLast.length ≤ st.length := by
            simp [List.length_dropLast]
          simp only [List.length_cons]
          omega
        · rw [if_neg hdd]
          have hgood : goodComp c := by
            push_neg at hskip
            exact ⟨hskip.1, hskip.2, hdd⟩
          have hrest : ∃ x ∈ rest, ¬goodComp x := by
            obtain ⟨x, hx, hxg⟩ := h
            rcases List.mem_cons.mp hx with hx | hx
            · exact absurd hgood (by rwa [hx] at hxg)
            · exact ⟨x, hx, hxg⟩
          have := ih (st ++ [c]) hrest
          simp only [List.length_append, List.length_cons, List.length_nil] at *
          omega

theorem cleanAbsComps_fix_iff (cs : List (List Char)) (hne : cs ≠ []) :
    cleanAbsComps cs = cs ↔ (cs = [[]] ∨ ∀ c ∈ cs, goodComp c) := by
  constructor
  · intro h
    by_cases hroot : cs = [[]]
    · exact Or.inl hroot
    · right
      by_contra hbad
      push_neg at hbad
      obtain ⟨c, hc, hcg⟩ := hbad
      unfold cleanAbsComps at h
      split at h
      · exact hroot h.symm
      · have hlt := cleanStack_length_lt cs [] ⟨c, hc, hcg⟩
        rw [h] at hlt
        simp at hlt
  · intro h
    rcases h with h | h
    · subst h; rfl
    · unfold cleanAbsComps
      rw [cleanStack_all_good [] cs h]
      simp only [List.nil_append]
      rw [if_neg hne]

theorem validateAbsolutePath_cases (p : List Char) :
    validateAbsolutePath p = .ok p ∨
    validateAbsolutePath p = .error .invalidArgument := by
  unfold validateAbsolutePath
  split
  · split
    · exact Or.inl rfl
    · exact Or.inr rfl
  · exact Or.inr rfl

/-- C5: `ValidateAbsolutePath` accepts exactly `/` and the canonical
absolute paths (absolute, no `.` or `..` components, no double slash, no
trailing slash), returning the path unchanged; every other path — relative
or non-canonical — is rejected with an invalid-argument error. -/
theorem C5_validate_absolute_path :
    ∀ p : List Char,
      (validateAbsolutePath p = .ok p ↔ claimCanonical p) ∧
      (∀ q, validateAbsolutePath p = .ok q → q = p) ∧
      (¬claimCanonical p → validateAbsolutePath p = .error .invalidArgument) := by
  intro p
  have main : validateAbsolutePath p = .ok p ↔ claimCanonical p := by
    cases p with
    | nil =>
        constructor
        · intro h; simp [validateAbsolutePath] at h
        · intro h; simp [claimCanonical] at h
    | cons c rest =>
        by_cases hc : c = '/'
        · subst hc
          have hne := splitSlash_ne_nil rest
          have hiff := cleanAbsComps_fix_iff (splitSlash rest) hne
          have htail : (splitSlash ('/' :: rest)).tail = splitSlash rest := by
            rw [splitSlash_slash, List.tail_cons]
          have hval : validateAbsolutePath ('/' :: rest)
              = if cleanAbsComps (splitSlash rest) = splitSlash rest
                then Except.ok ('/' :: rest)
                else Except.error .invalidArgument := by
            unfold validateAbsolutePath
            rw [htail, if_pos (by simp)]
          rw [hval]
          by_cases hfix : cleanAbsComps (splitSlash rest) = splitSlash rest
          · rw [if_pos hfix]
            constructor
            · intro _
              refine ⟨by simp, ?_⟩
              rcases hiff.mp hfix with hroot | hgood
              · left
                rw [(splitSlash_eq_root_iff rest).mp hroot]
              · right
                rw [htail]
                exact hgood
            · intro _; rfl
          · rw [if_neg hfix]
            constructor
            · intro h; simp at h
            · rintro ⟨-, h | h⟩
              · exfalso
                apply hfix
                have hrest : rest = [] := by
                  simpa using h
                subst hrest
                rfl
              · exact absurd (hiff.mpr (Or.inr (htail ▸ h))) hfix
        · constructor
          · intro h
            unfold validateAbsolutePath at h
            rw [if_neg (by simp [hc])] at h
            simp at h
          · rintro ⟨hh, -⟩
            simp at hh
            exact absurd hh hc
  refine ⟨main, ?_, ?_⟩
  · intro q hq
    rcases validateAbsolutePath_cases p with h | h
    · rw [h] at hq; injection hq with h2; exact h2.symm
    · rw [h] at hq; exact absurd hq (by simp)
  · intro hnc
    rcases validateAbsolutePath_cases p with h | h
    · exact absurd (main.mp h) hnc
    · exact h

/-! ## Claim C2: jump targets stay in bounds -/

theorem targets_jeqK (v jt jf i : Nat) :
    (jeqK v jt jf).targets i = [i + 1 + jt, i + 1 + jf] := by
  have hc : bpfClassOf 0x15 = bpfJmpClass := by decide
  have ho : bpfOpOf 0x15 ≠ bpfJaOp := by decide
  unfold SockFilter.targets jeqK
  simp only []
  rw [if_pos hc, if_neg ho]

theorem targets_retK (v i : Nat) : (retK v).targets i = [] := by
  have hc : bpfClassOf 0x06 ≠ bpfJmpClass := by decide
  unfold SockFilter.targets retK
  simp only []
  rw [if_neg hc]

theorem targets_ldAbs (off i : Nat) : (ldAbs off).targets i = [] := by
  have hc : bpfClassOf 0x20 ≠ bpfJmpClass := by decide
  unfold SockFilter.targets ldAbs
  simp only []
  rw [if_neg hc]

theorem targets_shift (f : SockFilter) (a i : Nat) :
    f.targets (a + i) = (f.targets i).map (a + ·) := by
  unfold SockFilter.targets
  split
  · split <;> simp <;> omega
  · simp

/-- All jump targets of the instructions of a relocatable block stay at or
before the end of the block (relative to the block start). -/
def blockBounded (fs : List SockFilter) : Prop :=
  ∀ (i : Nat) (g : SockFilter),
    fs[i]? = some g → ∀ t ∈ g.targets i, t ≤ fs.length

theorem ruleBounded (nr a : Nat) : blockBounded (Frag.flatten (.rule nr a)) := by
  intro i g h t ht
  rcases i with _ | _ | i
  · simp [Frag.flatten] at h
    subst h
    rw [targets_jeqK] at ht
    simp [Frag.flatten] at ht ⊢
    omega
  · simp [Frag.flatten] at h
    subst h
    rw [targets_retK] at ht
    simp at ht
  · simp [Frag.flatten] at h

theorem bodyOk_spec {body : List SockFilter} (hb : bodyOk body = true)
    {j : Nat} {g : SockFilter} (hj : body[j]? = some g) :
    ∀ t ∈ g.targets j, t ≤ body.length := by
  intro t ht
  have hjl : j < body.length := by
    by_contra hge
    rw [List.getElem?_eq_none (by omega)] at hj
    simp at hj
  have hall := List.all_eq_true.mp hb j (List.mem_range.mpr hjl)
  have hgd : body.getD j default = g := by
    rw [List.getD_eq_getElem?_getD, hj]
    rfl
  simp only [hgd] at hall
  unfold SockFilter.targets at ht
  split at ht
  · rename_i hclass
    rw [if_pos hclass] at hall
    split at ht
    · rename_i hop
      rw [if_pos hop] at hall
      simp at hall ht
      omega
    · rename_i hop
      rw [if_neg hop] at hall
      simp at hall ht
      rcases ht with ht | ht <;> omega
  · simp at ht

theorem customBounded (nrs : List Nat) (body : List SockFilter)
    (hb : bodyOk body = true) :
    blockBounded (Frag.flatten (.custom nrs body)) := by
  have hflat : Frag.flatten (.custom nrs body)
      = ((List.range nrs.length).map fun i =>
          jeqK (nrs.getD i 0) (nrs.length - 1 - i)
            (if i = nrs.length - 1 then body.length else 0)) ++ body := rfl
  intro i g h t ht
  rw [hflat] at h ⊢
  rw [List.length_append, List.length_map, List.length_range]
  by_cases hi : i < nrs.length
  · rw [List.getElem?_append_left (by simpa using hi)] at h
    rw [List.getElem?_map, List.getElem?_range hi] at h
    simp at h
    subst h
    rw [targets_jeqK] at ht
    simp at ht
    rcases ht with ht | ht
    · omega
    · split at ht <;> omega
  · push_neg at hi
    rw [List.getElem?_append_right (by simpa using hi)] at h
    rw [List.length_map, List.length_range] at h
    have hj : i = nrs.length + (i - nrs.length) := by omega
    rw [hj, targets_shift] at ht
    obtain ⟨t0, ht0, rfl⟩ := List.mem_map.mp ht
    have := bodyOk_spec hb h t0 ht0
    omega

theorem fragBounded (f : Frag) (h : f.valid) : blockBounded f.flatten := by
  cases f with
  | rule nr a => exact ruleBounded nr a
  | custom nrs body => exact customBounded nrs body h.2

theorem blockBounded_append (xs ys : List SockFilter)
    (hx : blockBounded xs) (hy : blockBounded ys) :
    blockBounded (xs ++ ys) := by
  intro i g h t ht
  rw [List.length_append]
  by_cases hi : i < xs.length
  · rw [List.getElem?_append_left hi] at h
    have := hx i g h t ht
    omega
  · push_neg at hi
    rw [List.getElem?_append_right hi] at h
    have hj : i = xs.length + (i - xs.length) := by omega
    rw [hj, targets_shift] at ht
    obtain ⟨t0, ht0, rfl⟩ := List.mem_map.mp ht
    have := hy (i - xs.length) g h t0 ht0
    omega

theorem userFlatBounded (frags : List Frag) (h : ∀ f ∈ frags, f.valid) :
    blockBounded (frags.flatMap Frag.flatten) := by
  induction frags with
  | nil => intro i g hg t ht; simp at hg
  | cons f rest ih =>
      rw [List.flatMap_cons]
      exact blockBounded_append _ _
        (fragBounded f (h f (by simp)))
        (ih fun x hx => h x (by simp [hx]))

theorem assemble_inBounds (frags : List Frag) (h : ∀ f ∈ frags, f.valid) :
    inBounds (assemble frags) := by
  have hU := userFlatBounded frags h
  have hlen : (assemble frags).length
      = 5 + (frags.flatMap Frag.flatten).length := by
    simp [assemble]
    omega
  intro i g hg t ht
  rw [hlen]
  rcases i with _ | _ | _ | _ | i
  · -- load arch
    simp [assemble] at hg
    subst hg
    rw [targets_ldAbs] at ht
    simp at ht
  · -- arch check: jump to 2 or 3
    simp [assemble] at hg
    subst hg
    rw [targets_jeqK] at ht
    simp at ht
    omega
  · -- kill on arch mismatch
    simp [assemble] at hg
    subst hg
    rw [targets_retK] at ht
    simp at ht
  · -- load syscall number
    simp [assemble] at hg
    subst hg
    rw [targets_ldAbs] at ht
    simp at ht
  · -- user policy and trailing kill
    have hrest : (assemble frags)[i + 4]?
        = (frags.flatMap Frag.flatten ++ [retK seccompRetKill])[i]? := by
      simp [assemble]
    rw [hrest] at hg
    have hshift : i + 4 = 4 + i := by omega
    rw [hshift, targets_shift] at ht
    obtain ⟨t0, ht0, rfl⟩ := List.mem_map.mp ht
    by_cases hi : i < (frags.flatMap Frag.flatten).length
    · rw [List.getElem?_append_left hi] at hg
      have := hU i g hg t0 ht0
      omega
    · push_neg at hi
      rw [List.getElem?_append_right hi] at hg
      rcases hk : i - (frags.flatMap Frag.flatten).length with _ | k
      · rw [hk] at hg
        simp at hg
        subst hg
        rw [targets_retK] at ht0
        simp at ht0
      · rw [hk] at hg
        simp at hg

theorem setError_status_ne_none (b : PolicyBuilder) (e : BError) :
    (b.setError e).status ≠ none := by
  unfold PolicyBuilder.setError
  split
  · simp
  · simpa using by assumption

theorem reachable_valid {b : PolicyBuilder} (h : Reachable b) :
    b.status = none → ∀ f ∈ b.user_policy, f.valid := by
  induction h with
  | init => intro _ f hf; simp at hf
  | @allow b n hr ih =>
      intro hs f hf
      unfold PolicyBuilder.allowSyscall at hs hf
      by_cases hmem : n ∈ b.handled
      · rw [if_pos hmem] at hs hf
        exact ih hs f hf
      · rw [if_neg hmem] at hs hf
        simp at hf
        rcases hf with hf | hf
        · exact ih hs f hf
        · subst hf; trivial
  | @block b n e hr ih =>
      intro hs f hf
      unfold PolicyBuilder.blockSyscallWithErrno at hs hf
      by_cases hmem : n ∈ b.handled
      · rw [if_pos hmem] at hs hf
        exact ih hs f hf
      · rw [if_neg hmem] at hs hf
        simp at hf
        rcases hf with hf | hf
        · exact ih hs f hf
        · subst hf; trivial
  | @addPolicy b n body hr ih =>
      intro hs f hf
      unfold PolicyBuilder.addPolicyOnSyscall PolicyBuilder.addPolicyOnSyscalls
        at hs hf
      rw [if_neg (by simp : ¬([n] = []))] at hs hf
      by_cases hbo : bodyOk body = true
      · rw [if_pos hbo] at hs
        simp at hf
        rcases hf with hf | hf
        · exact ih hs f hf
        · subst hf; exact ⟨by simp, hbo⟩
      · rw [if_neg hbo] at hs
        exact absurd hs (setError_status_ne_none b .invalidArgument)
  | @addPolicies b nrs body hr ih =>
      intro hs f hf
      unfold PolicyBuilder.addPolicyOnSyscalls at hs hf
      by_cases hnil : nrs = []
      · rw [if_pos hnil] at hs
        exact absurd hs (setError_status_ne_none b .invalidArgument)
      · rw [if_neg hnil] at hs hf
        by_cases hbo : bodyOk body = true
        · rw [if_pos hbo] at hs
          simp at hf
          rcases hf with hf | hf
          · exact ih hs f hf
          · subst hf; exact ⟨hnil, hbo⟩
        · rw [if_neg hbo] at hs
          exact absurd hs (setError_status_ne_none b .invalidArgument)
  | @addFile b p hr ih =>
      intro hs f hf
      unfold PolicyBuilder.addFile at hs hf
      cases hv : validateAbsolutePath p with
      | ok q => rw [hv] at hs hf; exact ih hs f hf
      | error e =>
          rw [hv] at hs
          exact absurd hs (setError_status_ne_none b e)
  | @addDirectory b p hr ih =>
      intro hs f hf
      unfold PolicyBuilder.addDirectory at hs hf
      cases hv : validateAbsolutePath p with
      | ok q => rw [hv] at hs hf; exact ih hs f hf
      | error e =>
          rw [hv] at hs
          exact absurd hs (setError_status_ne_none b e)
  | @addTmpfs b p size hr ih =>
      intro hs f hf
      unfold PolicyBuilder.addTmpfs at hs hf
      cases hv : validateAbsolutePath p with
      | ok q => rw [hv] at hs hf; exact ih hs f hf
      | error e =>
          rw [hv] at hs
          exact absurd hs (setError_status_ne_none b e)
  | sharedNetNs hr ih =>
      intro hs f hf
      exact ih hs f hf
  | unrestricted hr ih =>
      intro hs f hf
      exact ih hs f hf
  | build hr ih =>
      intro hs f hf
      rw [tryBuild_snd_built] at hs hf
      exact ih hs f hf

/-- C2: for every reachable builder whose `TryBuild` returns a policy, all
jump targets of the compiled BPF program lie inside `[0, program_len)`;
and a user rule whose embedded BPF contains an out-of-bounds jump makes
`TryBuild` (on a not-yet-built, error-free builder) return an
invalid-argument error instead of a policy. -/
theorem C2_jump_bounds :
    (∀ b : PolicyBuilder, Reachable b →
      ∀ prog, b.tryBuild.fst = .ok prog → inBounds prog) ∧
    (∀ (b : PolicyBuilder) (n : Nat) (body : List SockFilter),
      b.already_built = false → b.status = none → bodyOk body = false →
      (b.addPolicyOnSyscall n body).tryBuild.fst = .error .invalidArgument) := by
  constructor
  · intro b hb prog h
    unfold PolicyBuilder.tryBuild at h
    by_cases hbuilt : b.already_built
    · rw [if_pos hbuilt] at h; simp at h
    · rw [if_neg hbuilt] at h
      cases hst : b.status with
      | some e => rw [hst] at h; simp at h
      | none =>
          rw [hst] at h
          split at h
          · exact Except.noConfusion h
          · split at h
            · exact Except.noConfusion h
            · have h2 : assemble b.user_policy = prog := by
                injection h
              subst h2
              exact assemble_inBounds b.user_policy (reachable_valid hb hst)
  · intro b n body hbuilt hst hbo
    have hb2 : (b.addPolicyOnSyscall n body).status = some .invalidArgument := by
      unfold PolicyBuilder.addPolicyOnSyscall PolicyBuilder.addPolicyOnSyscalls
      rw [if_neg (by simp : ¬([n] = []))]
      simp only []
      rw [if_neg (by simp [hbo])]
      unfold PolicyBuilder.setError
      rw [if_pos hst]
    have hb3 : (b.addPolicyOnSyscall n body).already_built = false := by
      unfold PolicyBuilder.addPolicyOnSyscall PolicyBuilder.addPolicyOnSyscalls
      rw [if_neg (by simp : ¬([n] = []))]
      unfold PolicyBuilder.setError
      split <;> simpa using hbuilt
    unfold PolicyBuilder.tryBuild
    rw [if_neg (by simp [hb3]), hb2]

/-- Witness for C2 at concrete inputs: the empty reachable builder builds
an in-bounds program, and the out-of-bounds jump from the
`AddPolicyOnSyscallJumpOutOfBounds` test (`BPF_JUMP(BPF_JMP|BPF_JEQ|BPF_K,
1, 2, 0)` as the whole one-instruction policy) is rejected. -/
theorem C2_jump_bounds_witness :
    inBounds (assemble []) ∧
    (PolicyBuilder.addPolicyOnSyscall {} 1 [⟨0x15, 2, 0, 1⟩]).tryBuild.fst
      = .error .invalidArgument :=
  ⟨C2_jump_bounds.1 {} Reachable.init (assemble []) rfl,
   C2_jump_bounds.2 {} 1 [⟨0x15, 2, 0, 1⟩] rfl rfl (by decide)⟩

/-! ## Claims C6: monitor wall-time limit (monitor.h / monitor_unotify.h) -/

/-- The monitor state relevant to `SetWallTimeLimit`: the atomic deadline
in Unix milliseconds and a counter of `NotifyMonitor()` pokes. -/
structure MonitorState where
  deadlineMillis : Int
  notifyCount : Nat
deriving DecidableEq, Repr

/-- `PtraceMonitor::SetWallTimeLimit` (monitor.h): a zero limit stores 0
(disarm); otherwise the deadline becomes now + limit in Unix millis.  The
function performs no `NotifyMonitor()` call in either branch. -/
def ptraceSetWallTimeLimit (limitMillis nowMillis : Int) (s : MonitorState) :
    MonitorState :=
  if limitMillis = 0 then { s with deadlineMillis := 0 }
  else { s with deadlineMillis := nowMillis + limitMillis }

/-- `UnotifyMonitor::SetWallTimeLimit` (monitor_unotify.h): a zero limit
stores 0 (disarm) without poking; a non-zero limit stores now + limit and
then calls `NotifyMonitor()`. -/
def unotifySetWallTimeLimit (limitMillis nowMillis : Int) (s : MonitorState) :
    MonitorState :=
  if limitMillis = 0 then { s with deadlineMillis := 0 }
  else { s with
    deadlineMillis := nowMillis + limitMillis
    notifyCount := s.notifyCount + 1 }

/-- C6 fails on the code: `PtraceMonitor::SetWallTimeLimit` stores the
deadline but never pokes the monitor (no `NotifyMonitor()` call), here at
the concrete call `SetWallTimeLimit(5s)` at now = 1000 ms. -/
theorem C6_counterexample :
    (ptraceSetWallTimeLimit 5000 1000 ⟨0, 0⟩).notifyCount = 0 := by
  rfl

/-- C6 amended: both monitor variants store the deadline as the single
i64 field in Unix millis (0 disarms, otherwise now + limit) and touch no
other state except the poke counter; only the unotify monitor pokes the
monitor, and only when arming a non-zero limit — the ptrace monitor never
pokes from `SetWallTimeLimit` (its loop wakes every 500 ms instead), and
disarming never pokes on either variant. -/
theorem C6_amended :
    ∀ (limit now : Int) (s : MonitorState),
      ((ptraceSetWallTimeLimit limit now s).deadlineMillis
          = if limit = 0 then 0 else now + limit) ∧
      ((unotifySetWallTimeLimit limit now s).deadlineMillis
          = if limit = 0 then 0 else now + limit) ∧
      ((ptraceSetWallTimeLimit limit now s).notifyCount = s.notifyCount) ∧
      ((unotifySetWallTimeLimit limit now s).notifyCount
          = if limit = 0 then s.notifyCount else s.notifyCount + 1) := by
  intro limit now s
  unfold ptraceSetWallTimeLimit unotifySetWallTimeLimit
  refine ⟨?_, ?_, ?_, ?_⟩ <;> split <;> rfl

/-! ## Claims C7 and C8: NetworkProxyServer (network_proxy/server.cc) -/

/-- sizeof(sockaddr_in) on Linux. -/
def sizeofSockaddrIn : Nat := 16

/-- sizeof(sockaddr_in6) on Linux. -/
def sizeofSockaddrIn6 : Nat := 28

/-- AF_INET. -/
def afInet : Nat := 2

/-- AF_INET6. -/
def afInet6 : Nat := 10

/-- EINVAL. -/
def einval : Int := 22

/-- The `sa_family` field read from the first two bytes of a sockaddr
buffer (`sa_family_t` is a 16-bit integer at offset 0; native
little-endian byte order on the supported targets).  The code only reads
it after the buffer size passed the 16- or 28-byte check. -/
def saFamily (addr : List Nat) : Nat :=
  addr.getD 0 0 + 256 * addr.getD 1 0

/-- The exact size/family admission check of
`NetworkProxyServer::ProcessConnectRequest`: only a byte buffer that is
exactly a `sockaddr_in` with family AF_INET or exactly a `sockaddr_in6`
with family AF_INET6 is accepted. -/
def wellFormedSockaddr (addr : List Nat) : Bool :=
  (decide (addr.length = sizeofSockaddrIn) && decide (saFamily addr = afInet))
    || (decide (addr.length = sizeofSockaddrIn6)
        && decide (saFamily addr = afInet6))

/-- State of the proxy server thread: `fatal_error_`,
`violation_occurred_`, the recorded human-readable violation message
(modelled as the offending address bytes) and the number of
`notify_violation_fn_()` invocations. -/
structure ProxyState where
  fatalError : Bool := false
  violationOccurred : Bool := false
  violationMsg : Option (List Nat) := none
  notifyCount : Nat := 0
deriving DecidableEq, Repr

/-- A reply sent back to the sandboxee over comms: an errno value via
`SendInt32`, the success value 0 via `SendInt32`, or the connected socket
via `SendFD`. -/
inductive Reply where
  | errno (e : Int)
  | success
  | fd
deriving DecidableEq, Repr

/-- One connect request as the proxy thread observes it: either
`RecvBytes` fails, or it yields a byte buffer. -/
inductive Request where
  | recvFail
  | bytes (addr : List Nat)
deriving DecidableEq, Repr

/-- Environment of one `ProcessConnectRequest` iteration: whether the
allowlist admits the address (`AllowedHosts::IsHostAllowed`), the result
of `socket()` / `connect()` (`none` = success, `some e` = failure with
errno `e`), and whether the comms sends succeed. -/
structure ConnEnv where
  allowed : List Nat → Bool
  socketErrno : Option Int := none
  connectErrno : Option Int := none
  sendOk : Bool := true
  sendFdOk : Bool := true

/-- Result of one `ProcessConnectRequest` iteration: the new state, the
replies attempted on the comms channel, and whether a `socket()` call
(the start of a connection attempt) happened. -/
structure ConnOutcome where
  state : ProxyState
  replies : List Reply
  connectAttempted : Bool
deriving Repr

/-- `NetworkProxyServer::SendError`: sends the errno; a comms failure
sets `fatal_error_`. -/
def sendError (env : ConnEnv) (s : ProxyState) (e : Int) :
    ProxyState × List Reply :=
  (if env.sendOk then s else { s with fatalError := true }, [.errno e])

/-- `NetworkProxyServer::ProcessConnectRequest`, following server.cc line
by line: receive bytes (failure sets `fatal_error_` and returns), reject a
buffer that is not exactly a `sockaddr_in`/AF_INET or
`sockaddr_in6`/AF_INET6 with EINVAL, notify a violation (and send
nothing) for a disallowed address, otherwise `socket()` + `connect()`,
sending the saved errno on failure or `0` followed by the connected FD on
success. -/
def processConnectRequest (env : ConnEnv) (req : Request) (s : ProxyState) :
    ConnOutcome :=
  match req with
  | .recvFail => ⟨{ s with fatalError := true }, [], false⟩
  | .bytes addr =>
      if !wellFormedSockaddr addr then
        let (s', r) := sendError env s einval
        ⟨s', r, false⟩
      else if !env.allowed addr then
        ⟨{ s with
            violationOccurred := true
            violationMsg := some addr
            notifyCount := s.notifyCount + 1 }, [], false⟩
      else
        match env.socketErrno with
        | some e =>
            let (s', r) := sendError env s e
            ⟨s', r, true⟩
        | none =>
            match env.connectErrno with
            | some e =>
                let (s', r) := sendError env s e
                ⟨s', r, true⟩
            | none =>
                let s1 := if env.sendOk then s
                  else { s with fatalError := true }
                if !s1.fatalError && !env.sendFdOk then
                  ⟨{ s1 with fatalError := true }, [.success, .fd], true⟩
                else if !s1.fatalError then
                  ⟨s1, [.success, .fd], true⟩
                else ⟨s1, [.success], true⟩

/-- `NetworkProxyServer::Run`: keeps processing connect requests while
neither `fatal_error_` nor `violation_occurred_` is set.  The incoming
request stream is modelled as a list; the result pairs the final state
with the reply lists of the processed requests (one entry per processed
request). -/
def proxyRun (reqs : List (ConnEnv × Request)) (s : ProxyState) :
    ProxyState × List (List Reply) :=
  match reqs with
  | [] => (s, [])
  | (env, req) :: rest =>
      if s.fatalError || s.violationOccurred then (s, [])
      else
        let out := processConnectRequest env req s
        let (s', outs) := proxyRun rest out.state
        (s', out.replies :: outs)

theorem proxyRun_halted (reqs : List (ConnEnv × Request)) (s : ProxyState)
    (h : s.fatalError = true ∨ s.violationOccurred = true) :
    proxyRun reqs s = (s, []) := by
  cases reqs with
  | nil => rfl
  | cons r rest =>
      obtain ⟨env, req⟩ := r
      unfold proxyRun
      rcases h with h | h <;> simp [h]

/-- C7: a received connect-request buffer that is not exactly a
`sockaddr_in` with AF_INET nor exactly a `sockaddr_in6` with AF_INET6 is
answered with errno EINVAL, no connection is attempted (`socket()` is
never reached), and no violation state is touched (flag, message and
callback count are unchanged). -/
theorem C7_malformed_request_einval :
    ∀ (env : ConnEnv) (addr : List Nat) (s : ProxyState),
      wellFormedSockaddr addr = false →
      (processConnectRequest env (.bytes addr) s).replies = [.errno einval] ∧
      (processConnectRequest env (.bytes addr) s).connectAttempted = false ∧
      (processConnectRequest env (.bytes addr) s).state.violationOccurred
        = s.violationOccurred ∧
      (processConnectRequest env (.bytes addr) s).state.violationMsg
        = s.violationMsg ∧
      (processConnectRequest env (.bytes addr) s).state.notifyCount
        = s.notifyCount := by
  intro env addr s h
  by_cases hs : env.sendOk
  · have hproc : processConnectRequest env (.bytes addr) s
        = ⟨s, [.errno einval], false⟩ := by
      simp [processConnectRequest, sendError, h, hs]
    rw [hproc]
    exact ⟨rfl, rfl, rfl, rfl, rfl⟩
  · have hproc : processConnectRequest env (.bytes addr) s
        = ⟨{ s with fatalError := true }, [.errno einval], false⟩ := by
      simp [processConnectRequest, sendError, h, hs]
    rw [hproc]
    exact ⟨rfl, rfl, rfl, rfl, rfl⟩

/-- Witness for C7 at a concrete input: a 16-byte buffer carrying family
AF_INET6 (size/family mismatch), an allow-everything environment. -/
theorem C7_malformed_request_einval_witness :
    wellFormedSockaddr (10 :: 0 :: List.replicate 14 0) = false ∧
    (processConnectRequest ⟨fun _ => true, none, none, true, true⟩
        (.bytes (10 :: 0 :: List.replicate 14 0)) {}).replies
      = [.errno einval] :=
  ⟨by decide,
   (C7_malformed_request_einval ⟨fun _ => true, none, none, true, true⟩
      (10 :: 0 :: List.replicate 14 0) {} (by decide)).1⟩

/-- C8: a well-formed but disallowed address makes the server record the
violation (flag set, address recorded, callback invoked exactly once),
send no reply at all for that request, and the `Run` loop exits without
touching any further queued request. -/
theorem C8_violation_stops_loop :
    ∀ (env : ConnEnv) (addr : List Nat) (s : ProxyState)
      (rest : List (ConnEnv × Request)),
      s.fatalError = false → s.violationOccurred = false →
      wellFormedSockaddr addr = true → env.allowed addr = false →
      (processConnectRequest env (.bytes addr) s).replies = [] ∧
      (processConnectRequest env (.bytes addr) s).state =
        { s with
            violationOccurred := true
            violationMsg := some addr
            notifyCount := s.notifyCount + 1 } ∧
      proxyRun ((env, .bytes addr) :: rest) s
        = ((processConnectRequest env (.bytes addr) s).state, [[]]) := by
  intro env addr s rest hf hv hwf hal
  have hproc : processConnectRequest env (.bytes addr) s
      = ⟨{ s with
            violationOccurred := true
            violationMsg := some addr
            notifyCount := s.notifyCount + 1 }, [], false⟩ := by
    simp [processConnectRequest, hwf, hal]
  refine ⟨by rw [hproc], by rw [hproc], ?_⟩
  unfold proxyRun
  rw [hf, hv]
  simp only [Bool.or_self, if_neg (by simp : ¬(false = true))]
  rw [hproc]
  rw [proxyRun_halted rest _ (Or.inr rfl)]

/-- Witness for C8 at a concrete input: loopback-style `sockaddr_in`
bytes, an allowlist that rejects everything, one further queued request
that must not be processed. -/
theorem C8_violation_stops_loop_witness :
    (({} : ProxyState).fatalError = false ∧
      ({} : ProxyState).violationOccurred = false ∧
      wellFormedSockaddr (2 :: 0 :: List.replicate 14 0) = true ∧
      (fun _ : List Nat => false) (2 :: 0 :: List.replicate 14 0) = false) ∧
    proxyRun [(⟨fun _ => false, none, none, true, true⟩,
        .bytes (2 :: 0 :: List.replicate 14 0)),
      (⟨fun _ => true, none, none, true, true⟩, .recvFail)] {}
      = ((processConnectRequest ⟨fun _ => false, none, none, true, true⟩
          (.bytes (2 :: 0 :: List.replicate 14 0)) {}).state, [[]]) :=
  ⟨⟨rfl, rfl, by decide, rfl⟩,
   (C8_violation_stops_loop ⟨fun _ => false, none, none, true, true⟩
      (2 :: 0 :: List.replicate 14 0) {}
      [(⟨fun _ => true, none, none, true, true⟩, .recvFail)]
      rfl rfl (by decide) rfl).2.2⟩

/-! ## Claim C9: Comms move-assignment (comms.h) -/

/-- Channel state machine of a `Comms` object (comms.h). -/
inductive CommsSt where
  | unconnected
  | connected
  | terminated
deriving DecidableEq, Repr

/-- The `Comms` fields that `Comms::Swap` exchanges: connection name,
socket flavour, the owned connection FD (`raw_comms_`, `none` once
closed), the channel state and the listening-side handle. -/
structure CommsModel where
  name : List Char
  abstractUds : Bool
  fd : Option Int
  st : CommsSt
  listeningFd : Option Int
deriving DecidableEq, Repr

/-- Modelled from the spec: `Comms::Terminate` closes all underlying file
descriptors and moves the object to the terminated state (spec 4.1 state
machine; the comms.cc body is not among the excerpted sources). -/
def CommsModel.terminate (c : CommsModel) : CommsModel :=
  { c with fd := none, listeningFd := none, st := .terminated }

/-- `Comms::Swap`: exchanges every field of the two objects. -/
def commsSwap (a b : CommsModel) : CommsModel × CommsModel := (b, a)

/-- `Comms::operator=(Comms&&)` for distinct objects: swap with the
source, then terminate the source (which now holds the target's previous
resources).  Returns (new target, new source). -/
def commsMoveAssign (a b : CommsModel) : CommsModel × CommsModel :=
  ((commsSwap a b).fst, (commsSwap a b).snd.terminate)

/-- `Comms::operator=(Comms&&)` applied to the object itself: the
`this != &other` guard makes it a no-op. -/
def commsSelfMoveAssign (a : CommsModel) : CommsModel := a

/-- Modelled from the spec: every comms operation requires the connected
state; after `Terminate`, every operation fails (spec 4.1 "After
`Terminate`, every operation fails").  `ioOk` abstracts the underlying
I/O result of the operation when the channel is connected. -/
def CommsModel.operationSucceeds (c : CommsModel) (ioOk : Bool) : Bool :=
  match c.st with
  | .connected => ioOk
  | _ => false

/-- C9: move-assignment hands the full live channel state of the source
to the target; the moved-from object ends terminated with its file
descriptors closed, so every subsequent operation on it fails; and
self-move-assignment leaves the object unchanged. -/
theorem C9_comms_move_assign :
    ∀ a b : CommsModel,
      (commsMoveAssign a b).fst = b ∧
      (commsMoveAssign a b).snd.st = .terminated ∧
      (commsMoveAssign a b).snd.fd = none ∧
      (commsMoveAssign a b).snd.listeningFd = none ∧
      (∀ ioOk, (commsMoveAssign a b).snd.operationSucceeds ioOk = false) ∧
      commsSelfMoveAssign a = a := by
  intro a b
  exact ⟨rfl, rfl, rfl, rfl, fun _ => rfl, rfl⟩

/-! ## Claim C10: raw logging (raw_logging.cc) -/

/-- The bytes of the truncation marker string
`kTruncated[] = " ... (message truncated)\n"` (25 characters). -/
def kTruncatedBytes : List Nat :=
  [32, 46, 46, 46, 32, 40, 109, 101, 115, 115, 97, 103, 101, 32,
   116, 114, 117, 110, 99, 97, 116, 101, 100, 41, 10]

/-- sizeof(kTruncated), i.e. the 25 characters plus the trailing NUL. -/
def kTruncatedSizeof : Nat := 26

/-- Overwrites `buf` starting at byte offset `pos` with `bytes`. -/
def writeBytes (buf : List Nat) (pos : Nat) (bytes : List Nat) : List Nat :=
  buf.take pos ++ bytes ++ buf.drop (pos + bytes.length)

/-- The bytes `vsnprintf(dst, cap, ...)` actually stores for a formatted
message `msg`: nothing when `cap ≤ 0`; otherwise at most `cap - 1`
message bytes followed by the terminating NUL.  Its return value is the
untruncated length `msg.length`. -/
def vsnWritten (cap : Int) (msg : List Nat) : List Nat :=
  if cap ≤ 0 then [] else msg.take (cap.toNat - 1) ++ [0]

/-- The `(buf, size)` cursor `DoRawLog`/`VADoRawLog` thread through the
fixed stack buffer, together with the buffer contents. -/
structure RawLogState where
  buf : List Nat
  pos : Nat
  size : Int
deriving DecidableEq, Repr

/-- `DoRawLog` (raw_logging.cc): vsnprintf into the remaining space; on
`n < 0 || n > *size` report failure without advancing, otherwise advance
`*buf` and `*size` by the untruncated length `n`. -/
def doRawLog (s : RawLogState) (msg : List Nat) : RawLogState × Bool :=
  let n : Int := msg.length
  let buf' := writeBytes s.buf s.pos (vsnWritten s.size msg)
  if n > s.size then ({ s with buf := buf' }, false)
  else (⟨buf', s.pos + msg.length, s.size - n⟩, true)

/-- `VADoRawLog` (raw_logging.cc): like `DoRawLog`, but on overflow it
advances so that exactly `sizeof(kTruncated)` bytes remain (when more
than that much room is left), making room for the truncation marker, and
reports that the message was chopped. -/
def vaDoRawLog (s : RawLogState) (msg : List Nat) : RawLogState × Bool :=
  let n : Int := msg.length
  let buf' := writeBytes s.buf s.pos (vsnWritten s.size msg)
  if n > s.size then
    let adv : Int :=
      if s.size > (kTruncatedSizeof : Int) then s.size - kTruncatedSizeof
      else 0
    (⟨buf', s.pos + adv.toNat, s.size - adv⟩, false)
  else (⟨buf', s.pos + msg.length, s.size - n⟩, true)

/-- `RawLogVA` (raw_logging.cc), with the `[file : line] RAW: ` prefix
and the formatted message abstracted as byte lists: format the prefix,
format the message via `VADoRawLog`, then append either the newline
(byte 10) when the message reportedly fit or the truncation marker when
it was chopped.  The stack buffer has `bufSize` bytes.  Returns the final
cursor state and the `no_chop` flag. -/
def rawLogVA (bufSize : Nat) (pfx msg : List Nat) : RawLogState × Bool :=
  let s0 : RawLogState := ⟨List.replicate bufSize 0, 0, (bufSize : Int)⟩
  let s1 := (doRawLog s0 pfx).fst
  let r2 := vaDoRawLog s1 msg
  if r2.snd then ((doRawLog r2.fst [10]).fst, true)
  else ((doRawLog r2.fst kTruncatedBytes).fst, false)

/-- The line `SafeWriteToStderr(buffer, strlen(buffer))` emits: the
buffer contents up to the first NUL. -/
def emittedLine (s : RawLogState) : List Nat := s.buf.takeWhile (· ≠ 0)

set_option maxRecDepth 100000 in
/-- C10 boundary bug, evaluated at the failing input (buffer of 100
bytes, 10-byte prefix, 90-byte message, so the formatted message's length
exactly equals the remaining space): `VADoRawLog` tests `n > *size`, so a
message needing `size` characters plus the NUL is reported as having fit
(`no_chop = true`) although vsnprintf dropped its last byte.  The emitted
line is truncated, yet ends with neither the `" ... (message
truncated)\n"` marker (for which 90 bytes of room existed) nor even a
newline — contradicting the documented contract of `VADoRawLog` ("return
whether the message fit without truncation ... leave room for
kTruncated") and the claim.  The write itself stays inside the buffer. -/
theorem C10_truncation_bug_eval :
    (rawLogVA 100 (List.replicate 10 65) (List.replicate 90 66)).snd
        = true ∧
    emittedLine (rawLogVA 100 (List.replicate 10 65)
        (List.replicate 90 66)).fst
      = List.replicate 10 65 ++ List.replicate 89 66 ∧
    ¬ kTruncatedBytes <:+ emittedLine
        (rawLogVA 100 (List.replicate 10 65) (List.replicate 90 66)).fst ∧
    (emittedLine (rawLogVA 100 (List.replicate 10 65)
        (List.replicate 90 66)).fst).getLast? ≠ some 10 ∧
    (rawLogVA 100 (List.replicate 10 65)
        (List.replicate 90 66)).fst.buf.length = 100 := by
  refine ⟨rfl, by decide, by decide, by decide, by decide⟩
